import Mathlib

/-!
Verification of the stack extension's process-protocol client, relationship
calculator, and repository stack cache, against a shallow Lean embedding of
the TypeScript source (src/src/stack/index.ts, src/src/stack/stackCache.ts,
src/src/StackTreeDataProvider.ts, src/src/extension.ts, and the historical
revisions under src/unnamed).
-/

set_option maxHeartbeats 1000000

namespace StackExt

/-! ## Data model (src/src/extension.ts lines 394-500, src/unnamed/part_003,
src/unnamed/part_004, spec section 3) -/

/-- `Commit = {sha: string, message: string}`. -/
structure Commit where
  sha : String
  message : String
deriving Repr, DecidableEq

/-- `RemoteTrackingBranchStatus = {name, exists, ahead, behind}`. -/
structure RemoteTrackingBranchStatus where
  name : String
  «exists» : Bool
  ahead : Nat
  behind : Nat
deriving Repr, DecidableEq

/-- `GitHubPullRequest = {number, title, url, isDraft}`. -/
structure GitHubPullRequest where
  number : Nat
  title : String
  url : String
  isDraft : Bool
deriving Repr, DecidableEq

/-- `ParentBranchStatus = {name, ahead, behind}`: a branch's position relative
to its immediate parent in the stack. -/
structure ParentBranchStatus where
  name : String
  ahead : Nat
  behind : Nat
deriving Repr, DecidableEq

/-- `Branch = {name, exists, tip, remoteTrackingBranch}`; nullable fields
become `Option`. -/
structure Branch where
  name : String
  «exists» : Bool
  tip : Option Commit
  remoteTrackingBranch : Option RemoteTrackingBranchStatus
deriving Repr, DecidableEq

/-- `StackBranch` extends `Branch` with `pullRequest`, `parent` and the
recursive `children: StackBranch[]` (nested tree shape), so it is a nested
inductive rather than a structure. -/
inductive StackBranch where
  | mk
      (name : String)
      («exists» : Bool)
      (tip : Option Commit)
      (remoteTrackingBranch : Option RemoteTrackingBranchStatus)
      (pullRequest : Option GitHubPullRequest)
      (parent : Option ParentBranchStatus)
      (children : List StackBranch)
deriving Repr

def StackBranch.name : StackBranch → String
  | .mk n _ _ _ _ _ _ => n

def StackBranch.«exists» : StackBranch → Bool
  | .mk _ e _ _ _ _ _ => e

def StackBranch.tip : StackBranch → Option Commit
  | .mk _ _ t _ _ _ _ => t

def StackBranch.remoteTrackingBranch : StackBranch → Option RemoteTrackingBranchStatus
  | .mk _ _ _ r _ _ _ => r

def StackBranch.pullRequest : StackBranch → Option GitHubPullRequest
  | .mk _ _ _ _ p _ _ => p

def StackBranch.parent : StackBranch → Option ParentBranchStatus
  | .mk _ _ _ _ _ p _ => p

def StackBranch.children : StackBranch → List StackBranch
  | .mk _ _ _ _ _ _ c => c

/-- `Stack = {name, sourceBranch, branches}`. -/
structure Stack where
  name : String
  sourceBranch : Branch
  branches : List StackBranch
deriving Repr

/-! ## Relationship calculator -/

/-- `canCompareBranchToParent` from src/src/extension.ts lines 494-499 (also
src/unnamed/part_003 lines 15-20):
`branch.«exists» && (branch.remoteTrackingBranch === null || branch.remoteTrackingBranch.exists)`. -/
def canCompareBranchToParent (branch : StackBranch) : Bool :=
  branch.«exists» &&
    (match branch.remoteTrackingBranch with
      | none => true
      | some r => r.«exists»)

/-- The behind count shown for a branch by the current tree provider,
src/src/StackTreeDataProvider.ts line 1091:
`const behindParent = element.branch.parent.behind ?? 0;`
(`behind` is a non-nullable number, so `?? 0` never fires; accessing
`.behind` on an absent `parent` is a runtime error, modelled as `none`). -/
def shownBehindParent (branch : StackBranch) : Option Nat :=
  branch.parent.map (fun p => p.behind)

/-- The behind count computed by the historical tree provider revision,
src/unnamed/part_000 lines 795-798:
`(element.branch.parent?.behind ?? 0) + (parentBranch.remoteTrackingBranch?.behind ?? 0)`,
where `parentBranch` is the previous branch in the stack (or the source
branch). -/
def effectiveBehindCountLegacy (branch : StackBranch) (parentBranch : Branch) : Nat :=
  ((branch.parent.map (fun p => p.behind)).getD 0) +
    ((parentBranch.remoteTrackingBranch.map (fun r => r.behind)).getD 0)

/-! ## Theorems for C3 -/

/-- C3: `canCompareBranchToParent(branch)` returns true iff `branch.«exists»`
and (`branch.remoteTrackingBranch` is absent or its `exists` is true); in
particular it is false whenever `exists=false`, and whenever the remote
tracking branch is present with `exists=false`. -/
theorem canCompareBranchToParent_iff (branch : StackBranch) :
    canCompareBranchToParent branch = true ↔
      (branch.«exists» = true ∧
        (branch.remoteTrackingBranch = none ∨
          ∃ r, branch.remoteTrackingBranch = some r ∧ r.«exists» = true)) := by
  unfold canCompareBranchToParent
  cases hr : branch.remoteTrackingBranch with
  | none =>
      simp [hr]
  | some r =>
      simp only [Bool.and_eq_true]
      constructor
      · rintro ⟨h1, h2⟩
        exact ⟨h1, Or.inr ⟨r, rfl, h2⟩⟩
      · rintro ⟨h1, h2 | ⟨r', hr', he⟩⟩
        · exact absurd h2 (by simp)
        · injection hr' with h
          subst h
          exact ⟨h1, he⟩

/-! ## Theorems for C2 -/

/-- Concrete parent branch: its remote tracking branch is 3 behind. -/
def c2Parent : Branch :=
  { name := "main", «exists» := true, tip := none,
    remoteTrackingBranch := some ⟨"origin/main", true, 0, 3⟩ }

/-- Concrete branch: 2 behind its parent `main`. -/
def c2Branch : StackBranch :=
  .mk "feature" true none none none (some ⟨"main", 0, 2⟩) []

/-- C2 counterexample: the current tree provider
(src/src/StackTreeDataProvider.ts line 1091) shows a behind count of 2, not
2 + 3 = 5, for a branch with `parent.behind = 2` whose parent branch has
`remoteTrackingBranch.behind = 3`; only the historical revision
(src/unnamed/part_000 lines 795-798) computes 5. -/
theorem shownBehindParent_not_transitive :
    shownBehindParent c2Branch = some 2 ∧
      shownBehindParent c2Branch ≠ some (2 + 3) ∧
      effectiveBehindCountLegacy c2Branch c2Parent = 2 + 3 := by
  exact ⟨rfl, by decide, rfl⟩

/-- C2 amended: the behind count the current tree provider shows for a branch
with a parent status is exactly `parent.behind`; the parent branch's own
`remoteTrackingBranch.behind` is not added (that composition exists only in
the historical revision `effectiveBehindCountLegacy`, which computes
`parent.behind + parentBranch.remoteTrackingBranch.behind`, missing
components counting as 0). -/
theorem shownBehindParent_eq_parent_behind (b : StackBranch) (p : ParentBranchStatus)
    (hp : b.parent = some p) (parentBranch : Branch) :
    shownBehindParent b = some p.behind ∧
      effectiveBehindCountLegacy b parentBranch =
        p.behind + ((parentBranch.remoteTrackingBranch.map (fun r => r.behind)).getD 0) := by
  unfold shownBehindParent effectiveBehindCountLegacy
  rw [hp]
  exact ⟨rfl, rfl⟩

/-- Witness for C2's amended theorem at the concrete branch/parent pair. -/
theorem shownBehindParent_eq_parent_behind_witness :
    shownBehindParent c2Branch = some 2 ∧
      effectiveBehindCountLegacy c2Branch c2Parent = 2 + 3 := by
  have h := shownBehindParent_eq_parent_behind c2Branch ⟨"main", 0, 2⟩ rfl c2Parent
  exact ⟨h.1, h.2⟩

/-! ## Repository stack cache lookups (src/src/stack/stackCache.ts) -/

/-- `StackCache.getStackByName` (src/src/stack/stackCache.ts lines 25-30)
over the loaded forest: `this.cache?.find((stack) => stack.name === name)`. -/
def getStackByName (forest : List Stack) (name : String) : Option Stack :=
  forest.find? (fun stack => stack.name == name)

/-- `StackCache.getBranchByName` (src/src/stack/stackCache.ts lines 32-38):
`const stack = await this.getStackByName(stackName); return
stack?.branches.find((branch) => branch.name === branchName);` — the search
runs only over the named stack's top-level `branches` array. -/
def getBranchByName (forest : List Stack) (stackName branchName : String) :
    Option StackBranch :=
  (getStackByName forest stackName).bind
    (fun stack => stack.branches.find? (fun branch => branch.name == branchName))

mutual

/-- Does `n` occur as a branch name anywhere in this branch's subtree
(the branch itself or any descendant through `children`)? -/
def nameInBranchTree (n : String) : StackBranch → Bool
  | .mk nm _ _ _ _ _ children => (nm == n) || nameInForest n children

/-- Does `n` occur as a branch name anywhere in this list of branch trees? -/
def nameInForest (n : String) : List StackBranch → Bool
  | [] => false
  | b :: bs => nameInBranchTree n b || nameInForest n bs

end

/-! ## Theorems for C10 -/

/-- C10: `getBranchByName(stackName, branchName)` searches only the named
stack's top-level `branches` array: when the branch name occurs only inside
some top-level branch's `children` (at any nesting depth) and not as an
element of `stack.branches`, the lookup returns `undefined` (`none`). -/
theorem getBranchByName_top_level_only (forest : List Stack)
    (stackName branchName : String) (st : Stack)
    (hfind : getStackByName forest stackName = some st)
    (htop : ∀ b ∈ st.branches, ¬ b.name = branchName)
    (_hdesc : ∃ b ∈ st.branches, nameInForest branchName b.children = true) :
    getBranchByName forest stackName branchName = none := by
  unfold getBranchByName
  rw [hfind]
  simp only [Option.some_bind]
  apply List.find?_eq_none.mpr
  intro b hb
  simp [htop b hb]

/-- Concrete nested branch `b`, a child of `a`. -/
def c10Child : StackBranch := .mk "b" true none none none (some ⟨"a", 1, 0⟩) []

/-- Concrete top-level branch `a` with child `b`. -/
def c10Top : StackBranch := .mk "a" true none none none (some ⟨"main", 0, 0⟩) [c10Child]

/-- Concrete stack whose only top-level branch is `a`. -/
def c10Stack : Stack :=
  { name := "s", sourceBranch := ⟨"main", true, none, none⟩, branches := [c10Top] }

/-- Witness for C10: in a stack whose top-level branches are `[a]` and where
`b` exists only as a child of `a`, looking up `b` returns `none`. -/
theorem getBranchByName_top_level_only_witness :
    getBranchByName [c10Stack] "s" "b" = none :=
  getBranchByName_top_level_only [c10Stack] "s" "b" c10Stack rfl
    (by decide)
    ⟨c10Top, show c10Top ∈ [c10Top] from List.mem_singleton.mpr rfl,
      by simp [c10Top, c10Child, nameInForest, nameInBranchTree]⟩

/-! ## Repository stack cache fetch path (src/src/stack/stackCache.ts lines 9-14)

```
async getStacks(): Promise<Stack[]> {
  if (!this.cache) {
    this.cache = await this.stackApi.getStacks();
  }
  return this.cache;
}
```

`cache` is `Stack[] | null`, modelled as `Option (List Stack)`. A call's view
of the underlying `stackApi.getStacks()` outcome is an `Except`: `.ok` a
forest, or `.error` the rejection. When the `await` rejects, the assignment
to `this.cache` does not happen and the rejection propagates out of
`getStacks` unchanged. -/

/-- One complete `StackCache.getStacks()` call, given the outcome `fetch` of
the underlying client call: returns the call's own result and the cache
state after the call. -/
def cacheGetStacks {E : Type} (fetch : Except E (List Stack))
    (cache : Option (List Stack)) : Except E (List Stack) × Option (List Stack) :=
  match cache with
  | some c => (Except.ok c, some c)
  | none =>
    match fetch with
    | Except.ok v => (Except.ok v, some v)
    | Except.error e => (Except.error e, none)

/-! ## Theorems for C8 -/

/-- C8: on an `Empty` (null) cache, a failing fetch makes `getStacks()`
reject with that same error unchanged and leaves the cache `Empty`; and with
an `Empty` cache the call's result is always exactly the fresh fetch's
outcome (so a subsequent `getStacks()` after a failure performs and reports
a fresh fetch, never a cached partial/error result). -/
theorem cacheGetStacks_error_leaves_empty {E : Type} (e : E) :
    cacheGetStacks (Except.error e) (none : Option (List Stack)) =
        (Except.error e, none) ∧
      (∀ fetch : Except E (List Stack), (cacheGetStacks fetch none).1 = fetch) := by
  refine ⟨rfl, ?_⟩
  intro fetch
  cases fetch <;> rfl

/-! ## Single-flight analysis for C1

`StackCache.getStacks` contains exactly one suspension point (the `await` on
`this.stackApi.getStacks()`), so under the single-threaded event loop one
call is two atomic phases:

- phase A (entry up to the `await`): read `this.cache`; if non-null the call
  completes immediately with it; if null, invoke the client (one subprocess)
  and suspend on its promise;
- phase B (resumption): `this.cache = result; return this.cache`.

`CacheRun.fetchCount` counts client invocations; ticket `i` names the i-th
invocation, whose result is `fetchResult i`. -/

/-- Cache state plus the number of client fetches started so far. -/
structure CacheRun where
  cache : Option (List Stack)
  fetchCount : Nat
deriving Repr

/-- Outcome of a call's phase A: completed from cache, or suspended awaiting
a client fetch. -/
inductive PhaseAResult where
  | done (v : List Stack)
  | awaiting (ticket : Nat)
deriving Repr

/-- Phase A of `StackCache.getStacks()`: `if (!this.cache)` then start a
client fetch (counted) and suspend, else complete with the cached forest. -/
def getStacksPhaseA (s : CacheRun) : CacheRun × PhaseAResult :=
  match s.cache with
  | some v => (s, PhaseAResult.done v)
  | none => ({ s with fetchCount := s.fetchCount + 1 }, PhaseAResult.awaiting s.fetchCount)

/-- Phase B of `StackCache.getStacks()`: the awaited fetch resolved, so run
`this.cache = result; return this.cache`. -/
def getStacksPhaseB (fetchResult : Nat → List Stack) (s : CacheRun) (ticket : Nat) :
    CacheRun × List Stack :=
  ({ s with cache := some (fetchResult ticket) }, fetchResult ticket)

/-- Forest returned by the i-th client fetch in the C1 scenario: the first
fetch returns no stacks, the second returns one stack. -/
def c1FetchResult : Nat → List Stack
  | 0 => []
  | _ => [c10Stack]

/-! ## Theorem for C1 -/

/-- C1 (code bug witness): two concurrent `getStacks()` calls against an
`Empty` cache, both reaching their `await` before either fetch resolves
(phase order A1, A2, B1, B2), start TWO client fetches — not one — and the
two callers resolve to different forests. There is no single-flight guard in
`StackCache.getStacks` (src/src/stack/stackCache.ts lines 9-14): the second
caller re-reads the still-null cache and spawns its own subprocess. -/
theorem cacheGetStacks_not_single_flight :
    getStacksPhaseA ⟨none, 0⟩ = (⟨none, 1⟩, PhaseAResult.awaiting 0) ∧
      getStacksPhaseA ⟨none, 1⟩ = (⟨none, 2⟩, PhaseAResult.awaiting 1) ∧
      getStacksPhaseB c1FetchResult ⟨none, 2⟩ 0 = (⟨some [], 2⟩, []) ∧
      getStacksPhaseB c1FetchResult ⟨some [], 2⟩ 1 =
        (⟨some [c10Stack], 2⟩, [c10Stack]) ∧
      ([] : List Stack) ≠ [c10Stack] := by
  refine ⟨rfl, rfl, rfl, rfl, ?_⟩
  intro h
  exact List.cons_ne_nil c10Stack [] h.symm

/-! ## Auxiliary-channel line reassembly (src/src/stack/index.ts lines 202-214)

The stderr data handler receives string chunks, appends them to
`this._stderrLineBuffer`, splits on the regex `/\r?\n/`, and keeps the last
segment as the new buffer: only the fully terminated segments are processed
as lines. Strings are modelled as `List Char`. -/

/-- Helper prepending a character to the first segment of a split (used to
state how the regex split of `c :: s` relates to the split of `s`). -/
def consHead (c : Char) : List (List Char) → List (List Char)
  | [] => [[c]]
  | s :: ss => (c :: s) :: ss

/-- Model of JavaScript `buffer.split(/\r?\n/)`: scanning left to right, a
line break is either `\r\n` (consumed together) or a lone `\n`; the result
always has one more segment than there are breaks (so it is never empty, and
its last segment is the text after the final break). -/
def splitLines : List Char → List (List Char)
  | [] => [[]]
  | [c] => if c = '\n' then [[], []] else [[c]]
  | c :: d :: cs =>
    if c = '\n' then [] :: splitLines (d :: cs)
    else if c = '\r' ∧ d = '\n' then [] :: splitLines cs
    else consHead c (splitLines (d :: cs))

theorem consHead_ne_nil (c : Char) (l : List (List Char)) : consHead c l ≠ [] := by
  cases l <;> simp [consHead]

theorem splitLines_ne_nil (s : List Char) : splitLines s ≠ [] := by
  match s with
  | [] => simp [splitLines]
  | [c] => simp only [splitLines]; split <;> simp
  | c :: d :: cs =>
    simp only [splitLines]
    split
    · simp
    · split
      · simp
      · exact consHead_ne_nil _ _

theorem splitLines_newline (t : List Char) :
    splitLines ('\n' :: t) = [] :: splitLines t := by
  cases t with
  | nil => rfl
  | cons d cs => simp [splitLines]

theorem splitLines_crlf (t : List Char) :
    splitLines ('\r' :: '\n' :: t) = [] :: splitLines t := by
  simp [splitLines]

theorem splitLines_other (c : Char) (t : List Char) (hc : c ≠ '\n')
    (hcr : c = '\r' → t.head? ≠ some '\n') :
    splitLines (c :: t) = consHead c (splitLines t) := by
  cases t with
  | nil => simp [splitLines, consHead, hc]
  | cons d cs =>
    have hd : ¬(c = '\r' ∧ d = '\n') := by
      rintro ⟨h1, h2⟩
      exact hcr h1 (by simp [h2])
    simp [splitLines, hc, hd]

theorem getLastD_irrel {α : Type} {l : List α} (h : l ≠ []) (d d' : α) :
    l.getLastD d = l.getLastD d' := by
  cases l with
  | nil => exact absurd rfl h
  | cons a m =>
    rw [List.getLastD_eq_getLast?, List.getLastD_eq_getLast?, List.getLast?_cons]
    simp

theorem dropLast_cons_of_ne_nil' {α : Type} (a : α) {l : List α} (h : l ≠ []) :
    (a :: l).dropLast = a :: l.dropLast := by
  cases l with
  | nil => exact absurd rfl h
  | cons b m => exact List.dropLast_cons₂

theorem getLastD_cons_of_ne_nil' {α : Type} (a : α) {l : List α} (h : l ≠ []) (d : α) :
    (a :: l).getLastD d = l.getLastD d :=
  (List.getLastD_cons d a l).trans (getLastD_irrel h a d)

theorem getLastD_append_of_ne_nil {α : Type} (l₁ : List α) {l₂ : List α} (h : l₂ ≠ [])
    (d : α) : (l₁ ++ l₂).getLastD d = l₂.getLastD d := by
  rw [List.getLastD_eq_getLast?, List.getLastD_eq_getLast?,
    List.getLast?_append_of_ne_nil l₁ h]

theorem splitLines_singleton (u : List Char) : ∀ t, splitLines u = [t] → u = t := by
  induction u using splitLines.induct with
  | case1 =>
    intro t h
    rw [show splitLines [] = [[]] from rfl] at h
    injection h
  | case2 =>
    intro t h
    have h0 : splitLines ['\n'] = [[], []] := by simp [splitLines]
    rw [h0] at h
    injection h with _ h2
    exact absurd h2 (by simp)
  | case3 c hc =>
    intro t h
    have h0 : splitLines [c] = [[c]] := by simp [splitLines, hc]
    rw [h0] at h
    injection h
  | case4 d cs ih =>
    intro t h
    rw [splitLines_newline] at h
    injection h with _ h2
    exact absurd h2 (splitLines_ne_nil _)
  | case5 c d cs hc hcd ih =>
    intro t h
    obtain ⟨hcr, hdn⟩ := hcd
    subst hcr
    subst hdn
    rw [splitLines_crlf] at h
    injection h with _ h2
    exact absurd h2 (splitLines_ne_nil _)
  | case6 c d cs hc hcd ih =>
    intro t h
    have hother : splitLines (c :: d :: cs) = consHead c (splitLines (d :: cs)) := by
      apply splitLines_other c (d :: cs) hc
      intro h1 h2
      rw [List.head?_cons] at h2
      exact hcd ⟨h1, by injection h2⟩
    rw [hother] at h
    cases hS : splitLines (d :: cs) with
    | nil => exact absurd hS (splitLines_ne_nil _)
    | cons s0 ss =>
      rw [hS] at h
      simp only [consHead] at h
      injection h with h1 h2
      subst h2
      have heq : d :: cs = s0 := ih s0 hS
      rw [← h1, heq]

/-- Compositionality of the regex split: splitting `s ++ y` emits all fully
terminated segments of `s` and then re-scans the carry-over (the last
segment of `s`) prepended to `y` — exactly what the buffered handler does. -/
theorem splitLines_append (s y : List Char) :
    splitLines (s ++ y) =
      (splitLines s).dropLast ++ splitLines ((splitLines s).getLastD [] ++ y) := by
  induction s using splitLines.induct with
  | case1 =>
    simp [splitLines]
  | case2 =>
    have h0 : splitLines ['\n'] = [[], []] := by simp [splitLines]
    rw [h0, show (['\n'] : List Char) ++ y = '\n' :: y from rfl, splitLines_newline]
    simp
  | case3 c hc =>
    have h0 : splitLines [c] = [[c]] := by simp [splitLines, hc]
    rw [h0]
    simp
  | case4 d cs ih =>
    have hS := splitLines_ne_nil (d :: cs)
    have happ : (('\n' :: d :: cs) : List Char) ++ y = '\n' :: ((d :: cs) ++ y) := rfl
    rw [happ, splitLines_newline, splitLines_newline, ih,
      dropLast_cons_of_ne_nil' _ hS, getLastD_cons_of_ne_nil' _ hS, List.cons_append]
  | case5 c d cs hc hcd ih =>
    obtain ⟨hcr, hdn⟩ := hcd
    subst hcr
    subst hdn
    have hS := splitLines_ne_nil cs
    have happ : (('\r' :: '\n' :: cs) : List Char) ++ y = '\r' :: '\n' :: (cs ++ y) := rfl
    rw [happ, splitLines_crlf, splitLines_crlf, ih,
      dropLast_cons_of_ne_nil' _ hS, getLastD_cons_of_ne_nil' _ hS, List.cons_append]
  | case6 c d cs hc hcd ih =>
    have hother : splitLines (c :: d :: cs) = consHead c (splitLines (d :: cs)) := by
      apply splitLines_other c (d :: cs) hc
      intro h1 h2
      rw [List.head?_cons] at h2
      exact hcd ⟨h1, by injection h2⟩
    have hother2 : splitLines (c :: (d :: cs ++ y)) = consHead c (splitLines (d :: cs ++ y)) := by
      apply splitLines_other c (d :: cs ++ y) hc
      intro h1 h2
      rw [List.cons_append, List.head?_cons] at h2
      exact hcd ⟨h1, by injection h2⟩
    have happ : ((c :: d :: cs) : List Char) ++ y = c :: ((d :: cs) ++ y) := rfl
    rw [happ, hother2, hother, ih]
    cases hS : splitLines (d :: cs) with
    | nil => exact absurd hS (splitLines_ne_nil _)
    | cons s0 ss =>
      cases ss with
      | nil =>
        have heq : d :: cs = s0 := splitLines_singleton _ s0 hS
        subst heq
        rw [show (consHead c [d :: cs]) = [c :: d :: cs] from rfl,
          show ([d :: cs] : List (List Char)).dropLast = [] from rfl,
          show ([c :: d :: cs] : List (List Char)).dropLast = [] from rfl,
          show ([d :: cs] : List (List Char)).getLastD [] = d :: cs from rfl,
          show ([c :: d :: cs] : List (List Char)).getLastD [] = c :: d :: cs from rfl,
          List.nil_append, List.nil_append]
        rw [show ((c :: d :: cs) : List Char) ++ y = c :: ((d :: cs) ++ y) from rfl, hother2]
      | cons s1 ss' =>
        have hne : (s1 :: ss' : List (List Char)) ≠ [] := by simp
        rw [dropLast_cons_of_ne_nil' s0 hne, getLastD_cons_of_ne_nil' s0 hne]
        simp only [consHead, List.cons_append]
        rw [dropLast_cons_of_ne_nil' (c :: s0) hne, getLastD_cons_of_ne_nil' (c :: s0) hne,
          List.cons_append]

/-- The last segment of a split contains no line break, so re-splitting it
yields a single segment (the carry-over buffer is always break-free). -/
theorem splitLines_getLastD (s : List Char) :
    splitLines ((splitLines s).getLastD []) = [(splitLines s).getLastD []] := by
  induction s using splitLines.induct with
  | case1 => rfl
  | case2 =>
    have h0 : splitLines ['\n'] = [[], []] := by simp [splitLines]
    rw [h0]
    rfl
  | case3 c hc =>
    have h0 : splitLines [c] = [[c]] := by simp [splitLines, hc]
    rw [h0, show ([[c]] : List (List Char)).getLastD [] = [c] from rfl]
    exact h0
  | case4 d cs ih =>
    rw [splitLines_newline, getLastD_cons_of_ne_nil' _ (splitLines_ne_nil _)]
    exact ih
  | case5 c d cs hc hcd ih =>
    obtain ⟨hcr, hdn⟩ := hcd
    subst hcr
    subst hdn
    rw [splitLines_crlf, getLastD_cons_of_ne_nil' _ (splitLines_ne_nil _)]
    exact ih
  | case6 c d cs hc hcd ih =>
    have hother : splitLines (c :: d :: cs) = consHead c (splitLines (d :: cs)) := by
      apply splitLines_other c (d :: cs) hc
      intro h1 h2
      rw [List.head?_cons] at h2
      exact hcd ⟨h1, by injection h2⟩
    rw [hother]
    cases hS : splitLines (d :: cs) with
    | nil => exact absurd hS (splitLines_ne_nil _)
    | cons s0 ss =>
      cases ss with
      | nil =>
        have heq : d :: cs = s0 := splitLines_singleton _ s0 hS
        subst heq
        rw [show consHead c [d :: cs] = [c :: d :: cs] from rfl,
          show ([c :: d :: cs] : List (List Char)).getLastD [] = c :: d :: cs from rfl,
          hother, hS]
        rfl
      | cons s1 ss' =>
        have hne : (s1 :: ss' : List (List Char)) ≠ [] := by simp
        rw [show consHead c (s0 :: s1 :: ss') = (c :: s0) :: s1 :: ss' from rfl,
          getLastD_cons_of_ne_nil' (c :: s0) hne]
        rw [hS, getLastD_cons_of_ne_nil' s0 hne] at ih
        exact ih

/-- One execution of the stderr data handler's buffering step
(src/src/stack/index.ts lines 210-214) on one chunk:
`this._stderrLineBuffer += chunk; const lines = buffer.split(/\r?\n/);
this._stderrLineBuffer = lines.pop() || "";` — returns the fully terminated
lines handed to the per-line loop, and the new buffer. -/
def feed (buf chunk : List Char) : List (List Char) × List Char :=
  ((splitLines (buf ++ chunk)).dropLast, (splitLines (buf ++ chunk)).getLastD [])

/-- Repeated invocations of the stderr data handler on a sequence of chunks,
starting from buffer `buf`. An empty chunk returns early
(`if (!chunk) return;`, line 205). Returns all lines handed to the per-line
loop, in order, and the final buffer content (which the close handler,
lines 293-301, leaves untouched). -/
def processChunks (buf : List Char) : List (List Char) → List (List Char) × List Char
  | [] => ([], buf)
  | chunk :: rest =>
    if chunk.isEmpty then processChunks buf rest
    else
      ((feed buf chunk).1 ++ (processChunks (feed buf chunk).2 rest).1,
        (processChunks (feed buf chunk).2 rest).2)

/-- Processing any chunk sequence from a break-free buffer emits exactly the
fully terminated segments of the concatenated stream and retains its final
(undelimited) segment as the buffer. -/
theorem processChunks_eq (chunks : List (List Char)) : ∀ buf : List Char,
    splitLines buf = [buf] →
    processChunks buf chunks =
      ((splitLines (buf ++ chunks.flatten)).dropLast,
        (splitLines (buf ++ chunks.flatten)).getLastD []) := by
  induction chunks with
  | nil =>
    intro buf hbuf
    simp only [processChunks, List.flatten_nil, List.append_nil, hbuf]
    rfl
  | cons chunk rest ih =>
    intro buf hbuf
    by_cases hch : chunk.isEmpty
    · have hce : chunk = [] := by
        cases chunk with
        | nil => rfl
        | cons a l => simp [List.isEmpty] at hch
      simp only [processChunks, if_pos hch, hce, List.flatten_cons, List.nil_append]
      exact ih buf hbuf
    · simp only [processChunks, if_neg hch, feed]
      rw [ih _ (splitLines_getLastD (buf ++ chunk))]
      have hassoc : buf ++ (chunk :: rest).flatten = (buf ++ chunk) ++ rest.flatten := by
        rw [List.flatten_cons, List.append_assoc]
      rw [hassoc, splitLines_append (buf ++ chunk) rest.flatten]
      have hBne := splitLines_ne_nil ((splitLines (buf ++ chunk)).getLastD [] ++ rest.flatten)
      rw [List.dropLast_append_of_ne_nil _ hBne, getLastD_append_of_ne_nil _ hBne]

/-- Sequence of decoded events produced from a chunked stream: the per-line
loop (src/src/stack/index.ts lines 216-233) trims each terminated line and
attempts `JSON.parse`, abstracted here as an arbitrary per-line partial
decoding function applied to each terminated line in order. -/
def processChunksEvents {α : Type} (decode : List Char → Option α)
    (chunks : List (List Char)) : List α :=
  ((processChunks [] chunks).1).filterMap decode

/-! ## Theorem for C4 -/

/-- C4: for every per-line decoder and every way of splitting a stream into
chunks, the decoded event sequence equals that of processing the unsplit
stream in one chunk; moreover the lines handed to the decoder are exactly
the fully newline-terminated segments of the stream (`dropLast` of the
split), so the final undelimited segment is never decoded — it stays in the
carry-over buffer. -/
theorem stderr_chunk_invariant {α : Type} (decode : List Char → Option α)
    (chunks : List (List Char)) :
    processChunksEvents decode chunks = processChunksEvents decode [chunks.flatten] ∧
      (processChunks [] chunks).1 = (splitLines chunks.flatten).dropLast ∧
      (processChunks [] chunks).2 = (splitLines chunks.flatten).getLastD [] := by
  have h := processChunks_eq chunks [] rfl
  have h1 := processChunks_eq [chunks.flatten] [] rfl
  rw [List.nil_append] at h
  have hfl : ([chunks.flatten] : List (List Char)).flatten = chunks.flatten := by
    rw [List.flatten_cons, List.flatten_nil, List.append_nil]
  rw [List.nil_append, hfl] at h1
  refine ⟨?_, ?_, ?_⟩
  · unfold processChunksEvents
    rw [h, h1]
  · rw [h]
  · rw [h]

/-! ## Theorem for C5 -/

/-- C5 (code bug witness): `_stderrLineBuffer` is an instance field of
`StackApi` (src/src/stack/index.ts lines 54-55) and neither the close
handler (lines 293-301) nor the start of `exec` resets it, so a trailing
partial line is NOT discarded when the process ends: an invocation whose
stderr ends with the undelimited fragment `abc` leaves `abc` in the buffer,
and the next invocation on the same client prepends it to its own first
chunk `def\n`, decoding the cross-invocation line `abcdef`. -/
theorem stderrLineBuffer_leaks_across_invocations :
    (processChunks [] [['a', 'b', 'c']]).2 = ['a', 'b', 'c'] ∧
      (processChunks (processChunks [] [['a', 'b', 'c']]).2 [['d', 'e', 'f', '\n']]).1
        = [['a', 'b', 'c', 'd', 'e', 'f']] := by
  constructor <;> rfl

/-! ## Status event dispatch (src/src/stack/index.ts lines 11-21 and 272-281) -/

/-- Structured log event emitted on stderr by the stack CLI
(interface `StackCliLogEvent`, lines 11-16). -/
structure StackCliLogEvent where
  EventId : Int
  LogLevel : String
  Category : String
  Message : String
deriving Repr, DecidableEq

/-- Constant `StackCliEvents.Status = 1` (line 19). -/
def StackCliEvents.Status : Int := 1

/-- Constant `StackCliEvents.Success = 2` (line 20). -/
def StackCliEvents.Success : Int := 2

/-- Model of `try { listener(parsed.Message) } catch { /* swallow */ }`
(lines 275-279): whatever the listener call produced, the loop body
completes normally. -/
def tryIgnore {E : Type} (r : Except E Unit) : Except E Unit :=
  match r with
  | Except.ok _ => Except.ok ()
  | Except.error _ => Except.ok ()

/-- The `for (const listener of this._statusListeners)` loop (lines
274-280), recording each invocation as (argument passed, listener outcome);
the outcome is recorded and discarded, never propagated. A listener is a
function that may throw, modelled as returning `Except`. -/
def notifyStatusListeners {E : Type} :
    List (String → Except E Unit) → String → List (String × Except E Unit)
  | [], _ => []
  | l :: rest, msg => (msg, l msg) :: notifyStatusListeners rest msg

/-- The same loop written in the exception monad with the per-iteration
try/catch explicit: returns the number of listeners invoked, or propagates
an exception if one escaped the catch (which `tryIgnore` never lets
happen). -/
def notifyStatusListenersM {E : Type} :
    List (String → Except E Unit) → String → Except E Nat
  | [], _ => Except.ok 0
  | l :: rest, msg =>
    match tryIgnore (l msg) with
    | Except.ok _ => (notifyStatusListenersM rest msg).map (fun n => n + 1)
    | Except.error e => Except.error e

/-- Dispatch guard for one parsed event (lines 272-281):
`if (parsed.EventId === StackCliEvents.Status && parsed.Message) { ... }` —
note JavaScript truthiness makes an empty `Message` skip the dispatch. -/
def dispatchStatus {E : Type} (listeners : List (String → Except E Unit))
    (parsed : StackCliLogEvent) : List (String × Except E Unit) :=
  if parsed.EventId == StackCliEvents.Status && parsed.Message != "" then
    notifyStatusListeners listeners parsed.Message
  else []

/-- The per-line loop over the decoded events of an invocation: each event
is dispatched in order; listener outcomes never affect later lines. -/
def processParsedEvents {E : Type} (listeners : List (String → Except E Unit)) :
    List StackCliLogEvent → List (String × Except E Unit)
  | [] => []
  | e :: rest => dispatchStatus listeners e ++ processParsedEvents listeners rest

theorem notifyStatusListeners_eq_map {E : Type} (ls : List (String → Except E Unit))
    (msg : String) :
    notifyStatusListeners ls msg = ls.map (fun l => (msg, l msg)) := by
  induction ls with
  | nil => rfl
  | cons l rest ih => simp [notifyStatusListeners, ih]

theorem notifyStatusListenersM_ok {E : Type} (ls : List (String → Except E Unit))
    (msg : String) : notifyStatusListenersM ls msg = Except.ok ls.length := by
  induction ls with
  | nil => rfl
  | cons l rest ih =>
    cases hl : l msg <;>
      simp [notifyStatusListenersM, tryIgnore, hl, ih, List.length_cons, Except.map]

/-! ## Theorems for C6 -/

/-- A registered listener that always throws. -/
def c6Listener : String → Except String Unit := fun _ => Except.error "listener crashed"

/-- A decoded status event whose `Message` is the empty string. -/
def c6EmptyMessageEvent : StackCliLogEvent :=
  { EventId := 1, LogLevel := "Information", Category := "app", Message := "" }

/-- C6 counterexample: a decoded event with `EventId = 1` but empty
`Message` triggers no listener at all (the dispatch guard also tests
`parsed.Message` for truthiness), so "every listener is invoked" fails with
one registered listener and zero invocations. -/
theorem dispatchStatus_empty_message_counterexample :
    c6EmptyMessageEvent.EventId = 1 ∧
      dispatchStatus [c6Listener] c6EmptyMessageEvent = [] ∧
      ([c6Listener] : List (String → Except String Unit)).length = 1 :=
  ⟨rfl, rfl, rfl⟩

/-- C6 amended: for a decoded event with `EventId = 1` AND non-empty
`Message`, every registered listener is invoked, in order, with that
`Message` (even if earlier listeners threw); for any other event (including
`EventId = 2` or an empty `Message`) no listener is invoked; and the
listener loop with its per-iteration catch always completes normally having
invoked all listeners, so a throwing listener aborts neither the remaining
listeners nor the processing of subsequent lines. -/
theorem dispatchStatus_spec {E : Type} (listeners : List (String → Except E Unit))
    (parsed : StackCliLogEvent) :
    dispatchStatus listeners parsed =
        (if parsed.EventId = 1 ∧ parsed.Message ≠ "" then
          listeners.map (fun l => (parsed.Message, l parsed.Message))
        else []) ∧
      notifyStatusListenersM listeners parsed.Message = Except.ok listeners.length ∧
      (∀ rest : List StackCliLogEvent,
        processParsedEvents listeners (parsed :: rest) =
          dispatchStatus listeners parsed ++ processParsedEvents listeners rest) := by
  refine ⟨?_, notifyStatusListenersM_ok listeners parsed.Message, fun rest => rfl⟩
  unfold dispatchStatus
  by_cases h : parsed.EventId = 1 ∧ parsed.Message ≠ ""
  · rw [if_pos h]
    have hb : (parsed.EventId == StackCliEvents.Status && parsed.Message != "") = true := by
      simp [StackCliEvents.Status, h.1]
      exact h.2
    rw [if_pos hb]
    exact notifyStatusListeners_eq_map listeners parsed.Message
  · rw [if_neg h]
    have hb : ¬((parsed.EventId == StackCliEvents.Status && parsed.Message != "") = true) := by
      simp only [Bool.and_eq_true, beq_iff_eq, bne_iff_ne, StackCliEvents.Status]
      exact h
    rw [if_neg hb]

/-! ## Process termination (src/src/stack/index.ts lines 293-301) -/

/-- Message of the error built on non-zero exit:
`Command failed (exit code CODE): CMD` followed by a newline and the
accumulated stderr when it is non-empty (truthy). -/
def failureMessage (code : Int) (cmd : String) (stderrBuffer : String) : String :=
  "Command failed (exit code " ++ toString code ++ "): " ++ cmd ++
    (if stderrBuffer = "" then "" else "\n" ++ stderrBuffer)

/-- The close handler: `if (code === 0) return resolve(stdoutBuffer);`
otherwise reject with the failure message. `resolve`/`reject` become
`Except.ok`/`Except.error`. -/
def closeHandler (code : Int) (stdoutBuffer stderrBuffer cmd : String) :
    Except String String :=
  if code = 0 then Except.ok stdoutBuffer
  else Except.error (failureMessage code cmd stderrBuffer)

/-! ## Theorems for C7 -/

/-- C7: a spawned invocation resolves with the accumulated stdout exactly
when the exit code is 0, and on any non-zero exit rejects with an error
whose message carries the exit code, the command line, and the accumulated
stderr text (each appearing verbatim inside the message). -/
theorem closeHandler_spec (code : Int) (stdoutBuffer stderrBuffer cmd : String) :
    (closeHandler code stdoutBuffer stderrBuffer cmd = Except.ok stdoutBuffer ↔ code = 0) ∧
      (code ≠ 0 →
        closeHandler code stdoutBuffer stderrBuffer cmd =
            Except.error (failureMessage code cmd stderrBuffer) ∧
          (toString code).data <:+: (failureMessage code cmd stderrBuffer).data ∧
          cmd.data <:+: (failureMessage code cmd stderrBuffer).data ∧
          stderrBuffer.data <:+: (failureMessage code cmd stderrBuffer).data) := by
  constructor
  · unfold closeHandler
    by_cases h : code = 0
    · simp [h]
    · simp [h]
  · intro h
    refine ⟨by simp [closeHandler, h], ?_, ?_, ?_⟩
    · refine ⟨"Command failed (exit code ".data,
        ("): " ++ cmd ++ (if stderrBuffer = "" then "" else "\n" ++ stderrBuffer)).data, ?_⟩
      simp [failureMessage, String.data_append, List.append_assoc]
    · refine ⟨("Command failed (exit code " ++ toString code ++ "): ").data,
        (if stderrBuffer = "" then "" else "\n" ++ stderrBuffer).data, ?_⟩
      simp [failureMessage, String.data_append, List.append_assoc]
    · by_cases hs : stderrBuffer = ""
      · simp [hs]
      · refine ⟨("Command failed (exit code " ++ toString code ++ "): " ++ cmd ++ "\n").data,
          [], ?_⟩
        simp [failureMessage, hs, String.data_append, List.append_assoc]

/-- Witness for C7 at exit code 1, command `stack status --all --json`,
stderr `error: branch not found`. -/
theorem closeHandler_spec_witness :
    (1 : Int) ≠ 0 ∧
      closeHandler 1 "" "error: branch not found" "stack status --all --json" =
        Except.error (failureMessage 1 "stack status --all --json" "error: branch not found") :=
  ⟨by decide,
    ((closeHandler_spec 1 "" "error: branch not found" "stack status --all --json").2
      (by decide)).1⟩

/-! ## Mutation surface (src/src/stack/index.ts lines 111-182)

Each operation builds a command line and runs it through `exec`. The
outcome of `exec` for a given command line (spawn failure or non-zero exit
rejects; exit 0 resolves with stdout) is abstracted as a function
`ex : String → Except E String`. An operation that `await`s its `exec`
call rejects exactly when `exec` rejects; `newStack` (lines 111-119) calls
`this.exec(cmd);` WITHOUT `await`, so the promise it returns resolves
regardless and an `exec` rejection is dropped as an unhandled rejection —
modelled as the pair (operation result, dropped rejection if any). -/

/-- Update strategy union type (line 7): `"merge" | "rebase"`. -/
inductive UpdateStrategy where
  | merge
  | rebase
deriving Repr, DecidableEq

/-- String interpolation ` --${updateStrategy}` used by `sync` and
`update`, empty when the strategy is absent. -/
def updateStrategyFlag : Option UpdateStrategy → String
  | none => ""
  | some UpdateStrategy.merge => " --merge"
  | some UpdateStrategy.rebase => " --rebase"

namespace StackApi

/-- Command line of `newStack` (lines 112-116). -/
def newStackCmd (wd name sourceBranch : String) (branchName : Option String) : String :=
  "stack new --name \"" ++ name ++ "\" --source-branch \"" ++ sourceBranch ++
      "\" --working-dir \"" ++ wd ++ "\" --json" ++
    (match branchName with
      | some b => " --branch " ++ b
      | none => "")

/-- Operation `newStack` (lines 111-119): builds the command and calls
`this.exec(cmd);` without `await` — the returned promise resolves with
`undefined` in every case, and any rejection of the `exec` promise is
dropped (second component). -/
def newStack {E : Type} (ex : String → Except E String) (wd name sourceBranch : String)
    (branchName : Option String) : Except E Unit × Option E :=
  (Except.ok (),
    match ex (newStackCmd wd name sourceBranch branchName) with
    | Except.ok _ => none
    | Except.error e => some e)

/-- Command line of `newBranch` (line 122). -/
def newBranchCmd (wd stack name parent : String) : String :=
  "stack branch new --stack \"" ++ stack ++ "\" --branch \"" ++ name ++
    "\" --parent \"" ++ parent ++ "\" --working-dir \"" ++ wd ++ "\" --json"

/-- Operation `newBranch` (lines 121-124): `await this.exec(cmd);`. -/
def newBranch {E : Type} (ex : String → Except E String) (wd stack name parent : String) :
    Except E Unit :=
  (ex (newBranchCmd wd stack name parent)).map (fun _ => ())

/-- Command line of `addBranch` (line 127). -/
def addBranchCmd (wd stack name parent : String) : String :=
  "stack branch add --stack \"" ++ stack ++ "\" --branch \"" ++ name ++
    "\" --parent \"" ++ parent ++ "\" --working-dir \"" ++ wd ++ "\" --json"

/-- Operation `addBranch` (lines 126-129). -/
def addBranch {E : Type} (ex : String → Except E String) (wd stack name parent : String) :
    Except E Unit :=
  (ex (addBranchCmd wd stack name parent)).map (fun _ => ())

/-- Command line of `removeBranch` (line 132). -/
def removeBranchCmd (wd stack name : String) : String :=
  "stack branch remove --stack \"" ++ stack ++ "\" --branch \"" ++ name ++
    "\" --working-dir \"" ++ wd ++ "\" --yes --json"

/-- Operation `removeBranch` (lines 131-134). -/
def removeBranch {E : Type} (ex : String → Except E String) (wd stack name : String) :
    Except E Unit :=
  (ex (removeBranchCmd wd stack name)).map (fun _ => ())

/-- Command line of `sync` (lines 137-141). -/
def syncCmd (wd stack : String) (updateStrategy : Option UpdateStrategy) : String :=
  "stack sync --stack \"" ++ stack ++ "\" --working-dir \"" ++ wd ++ "\" --yes" ++
    updateStrategyFlag updateStrategy ++ " --json"

/-- Operation `sync` (lines 136-142). -/
def sync {E : Type} (ex : String → Except E String) (wd stack : String)
    (updateStrategy : Option UpdateStrategy) : Except E Unit :=
  (ex (syncCmd wd stack updateStrategy)).map (fun _ => ())

/-- Command line of `pull` (line 146). -/
def pullCmd (wd stack : String) : String :=
  "stack pull --stack \"" ++ stack ++ "\" --working-dir \"" ++ wd ++ "\" --json"

/-- Operation `pull` (lines 144-148). -/
def pull {E : Type} (ex : String → Except E String) (wd stack : String) : Except E Unit :=
  (ex (pullCmd wd stack)).map (fun _ => ())

/-- Command line of `push` (lines 151-155). -/
def pushCmd (wd stack : String) (forceWithLease : Bool) : String :=
  "stack push --stack \"" ++ stack ++ "\" --working-dir \"" ++ wd ++ "\" " ++
    (if forceWithLease then "--force-with-lease" else "") ++ " --json"

/-- Operation `push` (lines 150-156). -/
def push {E : Type} (ex : String → Except E String) (wd stack : String)
    (forceWithLease : Bool) : Except E Unit :=
  (ex (pushCmd wd stack forceWithLease)).map (fun _ => ())

/-- Command line of `update` (lines 159-163). -/
def updateCmd (wd stack : String) (updateStrategy : Option UpdateStrategy) : String :=
  "stack update --stack \"" ++ stack ++ "\" --working-dir \"" ++ wd ++ "\"" ++
    updateStrategyFlag updateStrategy ++ " --json"

/-- Operation `update` (lines 158-164). -/
def update {E : Type} (ex : String → Except E String) (wd stack : String)
    (updateStrategy : Option UpdateStrategy) : Except E Unit :=
  (ex (updateCmd wd stack updateStrategy)).map (fun _ => ())

/-- Command line of `delete` (line 168). -/
def deleteCmd (wd stack : String) : String :=
  "stack delete --stack \"" ++ stack ++ "\" --working-dir \"" ++ wd ++ "\" --yes --json"

/-- Operation `delete` (lines 166-170). -/
def delete {E : Type} (ex : String → Except E String) (wd stack : String) : Except E Unit :=
  (ex (deleteCmd wd stack)).map (fun _ => ())

/-- Command line of `cleanup` (line 174). -/
def cleanupCmd (wd stack : String) : String :=
  "stack cleanup --stack \"" ++ stack ++ "\" --working-dir \"" ++ wd ++ "\" --yes --json"

/-- Operation `cleanup` (lines 172-176). -/
def cleanup {E : Type} (ex : String → Except E String) (wd stack : String) : Except E Unit :=
  (ex (cleanupCmd wd stack)).map (fun _ => ())

/-- Command line of `switchToBranch` (line 180). -/
def switchToBranchCmd (wd branch : String) : String :=
  "stack switch --branch \"" ++ branch ++ "\" --working-dir \"" ++ wd ++ "\" --json"

/-- Operation `switchToBranch` (lines 178-182). -/
def switchToBranch {E : Type} (ex : String → Except E String) (wd branch : String) :
    Except E Unit :=
  (ex (switchToBranchCmd wd branch)).map (fun _ => ())

end StackApi

/-! ## Theorem for C9 -/

/-- An `exec` primitive whose every invocation fails (spawn failure or
non-zero exit). -/
def c9ExecFailure : String → Except String String :=
  fun _ => Except.error "spawn failure"

/-- C9 (code bug witness): with a failing subprocess, the ten `await`-ed
mutation operations (`newBranch`, `addBranch`, `removeBranch`, `sync`,
`update`, `pull`, `push`, `delete`, `cleanup`, `switchToBranch`) all reject
with that failure — but `newStack` (src/src/stack/index.ts line 118:
`this.exec(cmd);` with no `await`) resolves successfully while its `exec`
rejection is dropped, contradicting "every mutation operation's promise
rejects on subprocess failure". -/
theorem mutation_surface_failure_reporting :
    StackApi.newStack c9ExecFailure "/repo" "s1" "main" none =
        (Except.ok (), some "spawn failure") ∧
      StackApi.newBranch c9ExecFailure "/repo" "s1" "b1" "main" =
        Except.error "spawn failure" ∧
      StackApi.addBranch c9ExecFailure "/repo" "s1" "b1" "main" =
        Except.error "spawn failure" ∧
      StackApi.removeBranch c9ExecFailure "/repo" "s1" "b1" =
        Except.error "spawn failure" ∧
      StackApi.sync c9ExecFailure "/repo" "s1" none = Except.error "spawn failure" ∧
      StackApi.update c9ExecFailure "/repo" "s1" (some UpdateStrategy.rebase) =
        Except.error "spawn failure" ∧
      StackApi.pull c9ExecFailure "/repo" "s1" = Except.error "spawn failure" ∧
      StackApi.push c9ExecFailure "/repo" "s1" false = Except.error "spawn failure" ∧
      StackApi.delete c9ExecFailure "/repo" "s1" = Except.error "spawn failure" ∧
      StackApi.cleanup c9ExecFailure "/repo" "s1" = Except.error "spawn failure" ∧
      StackApi.switchToBranch c9ExecFailure "/repo" "b1" = Except.error "spawn failure" :=
  ⟨rfl, rfl, rfl, rfl, rfl, rfl, rfl, rfl, rfl, rfl, rfl⟩

end StackExt
